import Mathlib

/-!
Shallow embedding of a small JavaScript tokenizer + recursive-descent parser
(Go sources: the lexer file, `parser.go`, `ast.go`), together with theorems
checking the specification's claims against it.

Conventions of the embedding:
* Go strings scanned byte-by-byte become `List Char` scanned element by
  element; slice expressions `input[start:pos]` become `takeWhile` prefixes of
  the remainder at `start`.
* Go code that can panic (the out-of-range slice in the string-literal case of
  `Tokenize`) returns `Option`, with `none` marking the panic.
* The parser's mutable cursor `p.pos` becomes explicit position passing; the
  statement-level functions, whose loops can genuinely diverge, take a fuel
  argument and return `none` when the fuel is exhausted (so divergence of the
  Go code at an input is `∀ fuel, … = none`).
-/

namespace Ast

/-- Go struct `Token`: `Type` is the token category, `Value` the source text.
The field `Type` is renamed `type` because `Type` is reserved in Lean. -/
structure Token where
  type : String
  value : String
deriving Repr, DecidableEq

/-- The end-of-input marker appended by `Tokenize` and synthesized by the
parser's `current` when the cursor is past the end of the stream. -/
def eofToken : Token := ⟨"EOF", ""⟩

/-- Go `isAlpha`: ASCII letter or underscore. -/
def isAlpha (c : Char) : Bool :=
  ('a' ≤ c && c ≤ 'z') || ('A' ≤ c && c ≤ 'Z') || c == '_'

/-- Go `isDigit`: ASCII decimal digit. -/
def isDigit (c : Char) : Bool :=
  '0' ≤ c && c ≤ '9'

/-- Go `unicode.IsSpace(rune(char))` applied to a single byte: the Latin-1
space set (tab, newline, vertical tab, form feed, carriage return, space,
next line, no-break space). -/
def isSpaceChar (c : Char) : Bool :=
  c == ' ' || c == '\t' || c == '\n' || c.val == 11 || c.val == 12 ||
    c == '\r' || c.val == 133 || c.val == 160

/-- The keyword switch inside `Tokenize`: an identifier's text is matched
against the six reserved words, anything else is a generic IDENTIFIER. -/
def keywordType (value : String) : String :=
  if value == "function" then "FUNCTION"
  else if value == "return" then "RETURN"
  else if value == "const" then "CONST"
  else if value == "let" then "LET"
  else if value == "var" then "VAR"
  else if value == "if" then "IF"
  else "IDENTIFIER"

/-- The scanning loop of Go `Lexer.Tokenize`, over the remaining input.
Each arm mirrors one branch of the Go loop body in source order: whitespace,
`//`-comment, identifier/keyword, string literal, the punctuation switch, and
the default arm (numeric literal, then skip-unknown).  In the string-literal
arm, when no closing quote exists the Go code executes `l.pos++` past the end
of the input and then slices `l.input[start:l.pos]`, which is out of range:
that panic is `none` here.  When a closing character is found it is the first
character on which `x != c` fails, i.e. the quote character `c` itself, so
the emitted literal ends in `c`. -/
def lexLoop : List Char → Option (List Token)
  | [] => some []
  | c :: rest =>
    if isSpaceChar c then
      lexLoop rest
    else if c == '/' && rest.head? == some '/' then
      (lexLoop (rest.dropWhile (fun x => x != '\n'))).map
        (fun ts => ⟨"COMMENT", String.mk (c :: rest.takeWhile (fun x => x != '\n'))⟩ :: ts)
    else if isAlpha c then
      (lexLoop (rest.dropWhile (fun x => isAlpha x || isDigit x))).map
        (fun ts =>
          ⟨keywordType (String.mk (c :: rest.takeWhile (fun x => isAlpha x || isDigit x))),
            String.mk (c :: rest.takeWhile (fun x => isAlpha x || isDigit x))⟩ :: ts)
    else if c == '"' || c == '\'' then
      if rest.dropWhile (fun x => x != c) = [] then
        none
      else
        (lexLoop (rest.dropWhile (fun x => x != c)).tail).map
          (fun ts =>
            ⟨"STRING", String.mk (c :: (rest.takeWhile (fun x => x != c) ++ [c]))⟩ :: ts)
    else if c == '(' then (lexLoop rest).map (fun ts => ⟨"LEFT_PAREN", "("⟩ :: ts)
    else if c == ')' then (lexLoop rest).map (fun ts => ⟨"RIGHT_PAREN", ")"⟩ :: ts)
    else if c == '{' then (lexLoop rest).map (fun ts => ⟨"LEFT_BRACE", "\x7b"⟩ :: ts)
    else if c == '}' then (lexLoop rest).map (fun ts => ⟨"RIGHT_BRACE", "\x7d"⟩ :: ts)
    else if c == ';' then (lexLoop rest).map (fun ts => ⟨"SEMICOLON", ";"⟩ :: ts)
    else if c == ',' then (lexLoop rest).map (fun ts => ⟨"COMMA", ","⟩ :: ts)
    else if c == '=' then
      if rest.head? == some '=' then
        (lexLoop rest.tail).map (fun ts => ⟨"EQUALITY", "=="⟩ :: ts)
      else (lexLoop rest).map (fun ts => ⟨"EQUALS", "="⟩ :: ts)
    else if c == '>' then
      if rest.head? == some '=' then
        (lexLoop rest.tail).map (fun ts => ⟨"GREATER_EQUAL", ">="⟩ :: ts)
      else (lexLoop rest).map (fun ts => ⟨"GREATER_THAN", ">"⟩ :: ts)
    else if c == '<' then
      if rest.head? == some '=' then
        (lexLoop rest.tail).map (fun ts => ⟨"LESS_EQUAL", "<="⟩ :: ts)
      else (lexLoop rest).map (fun ts => ⟨"LESS_THAN", "<"⟩ :: ts)
    else if c == '+' then (lexLoop rest).map (fun ts => ⟨"PLUS", "+"⟩ :: ts)
    else if c == '-' then (lexLoop rest).map (fun ts => ⟨"MINUS", "-"⟩ :: ts)
    else if c == '*' then (lexLoop rest).map (fun ts => ⟨"MULTIPLY", "*"⟩ :: ts)
    else if c == '/' then
      if rest.head? == some '/' then lexLoop rest
      else (lexLoop rest).map (fun ts => ⟨"DIVIDE", "/"⟩ :: ts)
    else if c == '%' then (lexLoop rest).map (fun ts => ⟨"MODULO", "%"⟩ :: ts)
    else if isDigit c then
      if (rest.dropWhile isDigit).head? == some '.' then
        (lexLoop ((rest.dropWhile isDigit).tail.dropWhile isDigit)).map
          (fun ts =>
            ⟨"NUMBER",
              String.mk (c :: (rest.takeWhile isDigit ++
                '.' :: (rest.dropWhile isDigit).tail.takeWhile isDigit))⟩ :: ts)
      else
        (lexLoop (rest.dropWhile isDigit)).map
          (fun ts => ⟨"NUMBER", String.mk (c :: rest.takeWhile isDigit)⟩ :: ts)
    else
      lexLoop rest
termination_by input => input.length
decreasing_by
all_goals
  have H : ∀ (p : Char → Bool) (l : List Char), (List.dropWhile p l).length ≤ l.length := by
    intro p l
    induction l with
    | nil => simp
    | cons a l ih =>
      rw [List.dropWhile_cons]
      split
      · exact Nat.le_succ_of_le ih
      · simp
  simp only [List.length_cons, List.length_tail]
  first
  | omega
  | exact Nat.lt_succ_of_le (H _ _)
  | (have h1 := H (fun x => x != c) rest
     omega)
  | (have h1 := H isDigit ((rest.dropWhile isDigit).tail)
     have h2 := H isDigit rest
     simp only [List.length_tail] at h1
     omega)

/-- Go struct `Lexer`: the full input, the cursor, and the tokens found so
far. -/
structure Lexer where
  input : List Char
  pos : Nat
  tokens : List Token

/-- Go `NewLexer`: a fresh lexer at position 0 with an empty token list. -/
def NewLexer (input : List Char) : Lexer :=
  ⟨input, 0, []⟩

/-- Go method `Lexer.Tokenize`: run the scanning loop from the lexer's current
state, then append the EOF marker to the accumulated tokens. -/
def Lexer.Tokenize (l : Lexer) : Option (List Token) :=
  (lexLoop (l.input.drop l.pos)).map (fun ts => l.tokens ++ (ts ++ [eofToken]))

/-- The whole tokenization call as performed by `main`: `NewLexer` followed by
`Tokenize`. -/
def Tokenize (input : List Char) : Option (List Token) :=
  (NewLexer input).Tokenize

mutual
/-- The AST node variants of `ast.go`.  Go's nilable `Node` interface values
(absent children) become `Option Node` fields. -/
inductive Node where
  | functionDeclaration (name : String) (params : List Parameter) (body : List Node) : Node
  | returnStatement (argument : Option Node) : Node
  | identifier (name : String) : Node
  | stringLiteral (value : String) : Node
  | variableDeclaration (kind : String) (name : String) (value : Option Node) : Node
  | comment (text : String) : Node
  | ifStatement (test : Option Node) (consequent : List Node) : Node
  | binaryExpression (left : Option Node) (operator : String) (right : Option Node) : Node
  | numericLiteral (value : String) : Node

/-- Go struct `Parameter`: a name and an optional default-value expression. -/
inductive Parameter where
  | mk (name : String) (defaultValue : Option Node) : Parameter
end

/-- Go struct `Program`: the root node, an ordered list of top-level
statements. -/
structure Program where
  Body : List Node

/-- Go `Parser.current`: the token at the cursor, or a synthetic EOF token
when the cursor is at or past the end of the stream. -/
def current (tokens : List Token) (pos : Nat) : Token :=
  tokens.getD pos eofToken

/-- Go `strings.Trim s cutset`: remove all leading and all trailing characters
that occur in `cutset`. -/
def stringsTrim (s : String) (cutset : String) : String :=
  String.mk (((s.data.dropWhile (fun x => cutset.data.contains x)).reverse.dropWhile
    (fun x => cutset.data.contains x)).reverse)

/-- Go `parseComment`: wrap the current token's text, advance past it. -/
def parseComment (tokens : List Token) (pos : Nat) : Node × Nat :=
  (.comment (current tokens pos).value, pos + 1)

/-- Go `parsePrimary`: identifiers, numbers and strings become leaf nodes
(strings with both quote kinds trimmed from either end); any other token is
consumed and yields no node.  Every branch advances the cursor by one. -/
def parsePrimary (tokens : List Token) (pos : Nat) : Option Node × Nat :=
  if (current tokens pos).type == "IDENTIFIER" then
    (some (.identifier (current tokens pos).value), pos + 1)
  else if (current tokens pos).type == "NUMBER" then
    (some (.numericLiteral (current tokens pos).value), pos + 1)
  else if (current tokens pos).type == "STRING" then
    (some (.stringLiteral (stringsTrim (current tokens pos).value "\"'")), pos + 1)
  else
    (none, pos + 1)

/-- The value part of `parsePrimary` (same case split, no cursor): the leaf
node that `parsePrimary` builds from a given token. -/
def leafNode (token : Token) : Option Node :=
  if token.type == "IDENTIFIER" then some (.identifier token.value)
  else if token.type == "NUMBER" then some (.numericLiteral token.value)
  else if token.type == "STRING" then some (.stringLiteral (stringsTrim token.value "\"'"))
  else none

/-- Go `isBinaryOperator`. -/
def isBinaryOperator (tokenType : String) : Bool :=
  tokenType == "EQUALITY" || tokenType == "EQUALS" ||
    tokenType == "PLUS" || tokenType == "MINUS" ||
    tokenType == "MULTIPLY" || tokenType == "DIVIDE" ||
    tokenType == "MODULO" ||
    tokenType == "GREATER_THAN" || tokenType == "LESS_THAN" ||
    tokenType == "GREATER_EQUAL" || tokenType == "LESS_EQUAL"

/-- Go `parseExpression`: one primary operand; if the next token is a binary
operator, exactly one more primary operand, combined into a single
`binaryExpression`. -/
def parseExpression (tokens : List Token) (pos : Nat) : Option Node × Nat :=
  let left := (parsePrimary tokens pos).1
  let pos1 := (parsePrimary tokens pos).2
  if isBinaryOperator (current tokens pos1).type then
    (some (.binaryExpression left (current tokens pos1).value
        (parsePrimary tokens (pos1 + 1)).1),
      (parsePrimary tokens (pos1 + 1)).2)
  else
    (left, pos1)

/-- Go `parseReturnStatement`: skip `return`, parse an expression unless the
next token is a semicolon or EOF, then optionally skip a semicolon. -/
def parseReturnStatement (tokens : List Token) (pos : Nat) : Node × Nat :=
  let afterKw := pos + 1
  let step :=
    if ((current tokens afterKw).type != "SEMICOLON" &&
        (current tokens afterKw).type != "EOF") = true then
      parseExpression tokens afterKw
    else (none, afterKw)
  if (current tokens step.2).type == "SEMICOLON" then
    (.returnStatement step.1, step.2 + 1)
  else
    (.returnStatement step.1, step.2)

/-- Go `parseVariableDeclaration`: kind keyword, name, optional `=`, always a
value expression, optional semicolon. -/
def parseVariableDeclaration (tokens : List Token) (pos : Nat) : Node × Nat :=
  let kind := (current tokens pos).value
  let name := (current tokens (pos + 1)).value
  let afterName := pos + 2
  let afterEq :=
    if (current tokens afterName).type == "EQUALS" then afterName + 1 else afterName
  let step := parseExpression tokens afterEq
  if (current tokens step.2).type == "SEMICOLON" then
    (.variableDeclaration kind name step.1, step.2 + 1)
  else
    (.variableDeclaration kind name step.1, step.2)

/-- The parameter-list loop of Go `parseFunctionDeclaration`: runs until a
`)` or the end marker; an identifier (with optional `= default`) adds a
parameter, any other token is skipped.  This loop checks for EOF, so it is a
total function: the cursor strictly advances on every iteration. -/
def paramLoop (tokens : List Token) (pos : Nat) (params : List Parameter) :
    List Parameter × Nat :=
  if h : ((current tokens pos).type != "RIGHT_PAREN" &&
      (current tokens pos).type != "EOF") = true then
    if (current tokens pos).type == "IDENTIFIER" then
      let paramName := (current tokens pos).value
      let afterName := pos + 1
      let step :=
        if (current tokens afterName).type == "EQUALS" then
          parseExpression tokens (afterName + 1)
        else (none, afterName)
      let afterComma :=
        if (current tokens step.2).type == "COMMA" then step.2 + 1 else step.2
      paramLoop tokens afterComma (params ++ [⟨paramName, step.1⟩])
    else
      paramLoop tokens (pos + 1) params
  else
    (params, pos)
termination_by tokens.length - pos
decreasing_by
all_goals
  have hcur : tokens.length ≤ pos → current tokens pos = eofToken := by
    intro hge
    simp only [current, List.getD_eq_getElem?_getD]
    rw [List.getElem?_eq_none hge]
    rfl
  have hlt : pos < tokens.length := by
    by_contra hge
    push_neg at hge
    rw [hcur hge] at h
    simp [eofToken] at h
  first
  | omega
  | (have hpp : ∀ (t : List Token) (q : Nat), (parsePrimary t q).2 = q + 1 := by
      intro t q
      unfold parsePrimary
      split
      · rfl
      · split
        · rfl
        · split
          · rfl
          · rfl
     have hpe : ∀ (t : List Token) (q : Nat),
        (parseExpression t q).2 = q + 1 ∨ (parseExpression t q).2 = q + 3 := by
      intro t q
      simp only [parseExpression, hpp]
      split
      · right
        show q + 1 + 1 + 1 = q + 3
        omega
      · left
        rfl
     rcases hpe tokens (pos + 1 + 1) with he | he <;>
       (repeat' split) <;> omega)

mutual
/-- Go `parseStatement`: dispatch on the current token kind.  Fueled: `none`
means the fuel ran out (the Go code would still be running). -/
def parseStatement (tokens : List Token) : Nat → Nat → Option (Option Node × Nat)
  | 0, _ => none
  | fuel + 1, pos =>
    if (current tokens pos).type == "COMMENT" then
      some (some (parseComment tokens pos).1, (parseComment tokens pos).2)
    else if (current tokens pos).type == "FUNCTION" then
      match parseFunctionDeclaration tokens fuel pos with
      | none => none
      | some (n, p) => some (some n, p)
    else if (current tokens pos).type == "RETURN" then
      some (some (parseReturnStatement tokens pos).1, (parseReturnStatement tokens pos).2)
    else if ((current tokens pos).type == "CONST" || (current tokens pos).type == "LET" ||
        (current tokens pos).type == "VAR") then
      some (some (parseVariableDeclaration tokens pos).1, (parseVariableDeclaration tokens pos).2)
    else if (current tokens pos).type == "IF" then
      match parseIfStatement tokens fuel pos with
      | none => none
      | some (n, p) => some (some n, p)
    else if (current tokens pos).type == "SEMICOLON" then
      some (none, pos + 1)
    else
      some (none, pos + 1)

/-- Go `parseFunctionDeclaration`: keyword, name, optional parenthesized
parameter list, optional brace-delimited body.  The body loop is
`funcBodyLoop`. -/
def parseFunctionDeclaration (tokens : List Token) : Nat → Nat → Option (Node × Nat)
  | 0, _ => none
  | fuel + 1, pos =>
    let name := (current tokens (pos + 1)).value
    let afterName := pos + 2
    let paramsStep :=
      if (current tokens afterName).type == "LEFT_PAREN" then
        let lp := paramLoop tokens (afterName + 1) []
        if (current tokens lp.2).type == "RIGHT_PAREN" then (lp.1, lp.2 + 1) else (lp.1, lp.2)
      else ([], afterName)
    if (current tokens paramsStep.2).type == "LEFT_BRACE" then
      match funcBodyLoop tokens fuel (paramsStep.2 + 1) [] with
      | none => none
      | some (body, p) =>
        some (.functionDeclaration name paramsStep.1 body, p + 1)
    else
      some (.functionDeclaration name paramsStep.1 [], paramsStep.2)

/-- The function-body loop of Go `parseFunctionDeclaration` (parser.go lines
131 to 136): runs statements until a `}`.  Unlike the other statement loops it
does NOT stop at the end marker, so on a stream with no closing brace it never
terminates (every fuel value is exhausted). -/
def funcBodyLoop (tokens : List Token) : Nat → Nat → List Node → Option (List Node × Nat)
  | 0, _, _ => none
  | fuel + 1, pos, body =>
    if (current tokens pos).type == "RIGHT_BRACE" then
      some (body, pos)
    else
      match parseStatement tokens fuel pos with
      | none => none
      | some (stmt, p) => funcBodyLoop tokens fuel p (body ++ stmt.toList)

/-- Go `parseIfStatement`: `if`, optional parenthesized test expression,
optional brace-delimited consequent block (its loop stops at `}` or EOF). -/
def parseIfStatement (tokens : List Token) : Nat → Nat → Option (Node × Nat)
  | 0, _ => none
  | fuel + 1, pos =>
    let afterKw := pos + 1
    let testStep :=
      if (current tokens afterKw).type == "LEFT_PAREN" then
        let e := parseExpression tokens (afterKw + 1)
        if (current tokens e.2).type == "RIGHT_PAREN" then (e.1, e.2 + 1) else (e.1, e.2)
      else (none, afterKw)
    if (current tokens testStep.2).type == "LEFT_BRACE" then
      match ifBodyLoop tokens fuel (testStep.2 + 1) [] with
      | none => none
      | some (conseq, p) =>
        if (current tokens p).type == "RIGHT_BRACE" then
          some (.ifStatement testStep.1 conseq, p + 1)
        else
          some (.ifStatement testStep.1 conseq, p)
    else
      some (.ifStatement testStep.1 [], testStep.2)

/-- The consequent loop of Go `parseIfStatement`: runs statements until a `}`
or the end marker. -/
def ifBodyLoop (tokens : List Token) : Nat → Nat → List Node → Option (List Node × Nat)
  | 0, _, _ => none
  | fuel + 1, pos, conseq =>
    if ((current tokens pos).type != "RIGHT_BRACE" &&
        (current tokens pos).type != "EOF") = true then
      match parseStatement tokens fuel pos with
      | none => none
      | some (stmt, p) => ifBodyLoop tokens fuel p (conseq ++ stmt.toList)
    else
      some (conseq, pos)

/-- The top-level loop of Go `Parse`: statements until the end marker. -/
def programLoop (tokens : List Token) : Nat → Nat → List Node → Option (List Node)
  | 0, _, _ => none
  | fuel + 1, pos, body =>
    if (current tokens pos).type == "EOF" then
      some body
    else
      match parseStatement tokens fuel pos with
      | none => none
      | some (stmt, p) => programLoop tokens fuel p (body ++ stmt.toList)
end

/-- Go `Parse` (on the parser freshly created by `NewParser`): build the
program from position 0.  `none` means the given fuel was exhausted. -/
def Parse (tokens : List Token) (fuel : Nat) : Option Program :=
  (programLoop tokens fuel 0 []).map Program.mk

/-- Source texts consisting only of whitespace characters and `//`-comments,
together with the list of the comment texts in order.  A comment starts with
`//`, its body contains no newline, and it extends to the next newline (which
is whitespace and stays in the remainder) or to end-of-input. -/
inductive WsComments : List Char → List (List Char) → Prop where
  | nil : WsComments [] []
  | ws (c : Char) (rest : List Char) (cs : List (List Char)) :
      isSpaceChar c = true → WsComments rest cs → WsComments (c :: rest) cs
  | comment (body rest : List Char) (cs : List (List Char)) :
      (∀ x ∈ body, x ≠ '\n') →
      (rest = [] ∨ ∃ r, rest = '\n' :: r) →
      WsComments rest cs →
      WsComments ('/' :: '/' :: (body ++ rest)) (('/' :: '/' :: body) :: cs)

/-- The token stream of the source `function f() {` — a function declaration
whose body is never closed by `}`. -/
def unclosedFunctionTokens : List Token :=
  [⟨"FUNCTION", "function"⟩, ⟨"IDENTIFIER", "f"⟩, ⟨"LEFT_PAREN", "("⟩,
    ⟨"RIGHT_PAREN", ")"⟩, ⟨"LEFT_BRACE", "\x7b"⟩, eofToken]

theorem length_dropWhile_le (p : α → Bool) (l : List α) :
    (l.dropWhile p).length ≤ l.length := by
  induction l with
  | nil => simp
  | cons a l ih =>
    rw [List.dropWhile_cons]
    split
    · exact Nat.le_succ_of_le ih
    · simp

theorem dropWhile_head_not (p : α → Bool) (l : List α) (a : α) (l2 : List α)
    (h : l.dropWhile p = a :: l2) : p a = false := by
  induction l with
  | nil => simp at h
  | cons x xs ih =>
    rw [List.dropWhile_cons] at h
    split at h
    · exact ih h
    · next hx =>
      cases h
      simpa using hx

theorem takeWhile_append_all (p : α → Bool) (l1 l2 : List α) (h : ∀ x ∈ l1, p x = true) :
    (l1 ++ l2).takeWhile p = l1 ++ l2.takeWhile p := by
  induction l1 with
  | nil => simp
  | cons a l ih =>
    have ha : p a = true := h a (by simp)
    simp only [List.cons_append, List.takeWhile_cons, ha, if_true]
    rw [ih (fun x hx => h x (by simp [hx]))]

theorem dropWhile_append_all (p : α → Bool) (l1 l2 : List α) (h : ∀ x ∈ l1, p x = true) :
    (l1 ++ l2).dropWhile p = l2.dropWhile p := by
  induction l1 with
  | nil => simp
  | cons a l ih =>
    have ha : p a = true := h a (by simp)
    simp only [List.cons_append, List.dropWhile_cons, ha, if_true]
    exact ih (fun x hx => h x (by simp [hx]))

theorem keywordType_ne_eof (s : String) : keywordType s ≠ "EOF" := by
  unfold keywordType
  split_ifs <;> simp

theorem map_cons_no_eof (tok : Token) (htok : tok.type ≠ "EOF") (o : Option (List Token))
    (ts : List Token) (h : o.map (fun ts => tok :: ts) = some ts)
    (ho : ∀ ts', o = some ts' → ∀ t ∈ ts', t.type ≠ "EOF") :
    ∀ t ∈ ts, t.type ≠ "EOF" := by
  rw [Option.map_eq_some'] at h
  obtain ⟨ts', h1, rfl⟩ := h
  intro t ht
  rcases List.mem_cons.mp ht with rfl | hmem
  · exact htok
  · exact ho ts' h1 t hmem

theorem lexLoop_no_eof : ∀ (n : Nat) (input : List Char), input.length ≤ n →
    ∀ ts, lexLoop input = some ts → ∀ t ∈ ts, t.type ≠ "EOF" := by
  intro n
  induction n with
  | zero =>
    intro input hlen ts hts
    rw [List.length_eq_zero.mp (Nat.le_zero.mp hlen)] at hts
    rw [lexLoop] at hts
    injection hts with h
    subst h
    intro t ht
    cases ht
  | succ n ih =>
    intro input hlen ts hts
    cases input with
    | nil =>
      rw [lexLoop] at hts
      injection hts with h
      subst h
      intro t ht
      cases ht
    | cons c rest =>
      have H : ∀ (p : Char → Bool) (l : List Char), (List.dropWhile p l).length ≤ l.length :=
        length_dropWhile_le
      simp only [List.length_cons] at hlen
      have hrest : rest.length ≤ n := by omega
      rw [lexLoop] at hts
      by_cases h1 : isSpaceChar c = true
      · rw [if_pos h1] at hts
        exact ih rest hrest ts hts
      rw [if_neg h1] at hts
      by_cases h2 : (c == '/' && rest.head? == some '/') = true
      · rw [if_pos h2] at hts
        refine map_cons_no_eof _ (by simp) _ _ hts (fun ts' h' => ih _ ?_ ts' h')
        exact le_trans (H _ _) hrest
      rw [if_neg h2] at hts
      by_cases h3 : isAlpha c = true
      · rw [if_pos h3] at hts
        refine map_cons_no_eof _ (keywordType_ne_eof _) _ _ hts (fun ts' h' => ih _ ?_ ts' h')
        exact le_trans (H _ _) hrest
      rw [if_neg h3] at hts
      by_cases h4 : (c == '"' || c == '\'') = true
      · rw [if_pos h4] at hts
        by_cases h4e : rest.dropWhile (fun x => x != c) = []
        · rw [if_pos h4e] at hts
          exact absurd hts (by simp)
        · rw [if_neg h4e] at hts
          refine map_cons_no_eof _ (by simp) _ _ hts (fun ts' h' => ih _ ?_ ts' h')
          have h5 := H (fun x => x != c) rest
          simp only [List.length_tail]
          omega
      rw [if_neg h4] at hts
      by_cases h5 : (c == '(') = true
      · rw [if_pos h5] at hts
        exact map_cons_no_eof _ (by simp) _ _ hts (fun ts' h' => ih _ hrest ts' h')
      rw [if_neg h5] at hts
      by_cases h6 : (c == ')') = true
      · rw [if_pos h6] at hts
        exact map_cons_no_eof _ (by simp) _ _ hts (fun ts' h' => ih _ hrest ts' h')
      rw [if_neg h6] at hts
      by_cases h7 : (c == '{') = true
      · rw [if_pos h7] at hts
        exact map_cons_no_eof _ (by simp) _ _ hts (fun ts' h' => ih _ hrest ts' h')
      rw [if_neg h7] at hts
      by_cases h8 : (c == '}') = true
      · rw [if_pos h8] at hts
        exact map_cons_no_eof _ (by simp) _ _ hts (fun ts' h' => ih _ hrest ts' h')
      rw [if_neg h8] at hts
      by_cases h9 : (c == ';') = true
      · rw [if_pos h9] at hts
        exact map_cons_no_eof _ (by simp) _ _ hts (fun ts' h' => ih _ hrest ts' h')
      rw [if_neg h9] at hts
      by_cases h10 : (c == ',') = true
      · rw [if_pos h10] at hts
        exact map_cons_no_eof _ (by simp) _ _ hts (fun ts' h' => ih _ hrest ts' h')
      rw [if_neg h10] at hts
      by_cases h11 : (c == '=') = true
      · rw [if_pos h11] at hts
        by_cases h11e : (rest.head? == some '=') = true
        · rw [if_pos h11e] at hts
          refine map_cons_no_eof _ (by simp) _ _ hts (fun ts' h' => ih _ ?_ ts' h')
          simp only [List.length_tail]
          omega
        · rw [if_neg h11e] at hts
          exact map_cons_no_eof _ (by simp) _ _ hts (fun ts' h' => ih _ hrest ts' h')
      rw [if_neg h11] at hts
      by_cases h12 : (c == '>') = true
      · rw [if_pos h12] at hts
        by_cases h12e : (rest.head? == some '=') = true
        · rw [if_pos h12e] at hts
          refine map_cons_no_eof _ (by simp) _ _ hts (fun ts' h' => ih _ ?_ ts' h')
          simp only [List.length_tail]
          omega
        · rw [if_neg h12e] at hts
          exact map_cons_no_eof _ (by simp) _ _ hts (fun ts' h' => ih _ hrest ts' h')
      rw [if_neg h12] at hts
      by_cases h13 : (c == '<') = true
      · rw [if_pos h13] at hts
        by_cases h13e : (rest.head? == some '=') = true
        · rw [if_pos h13e] at hts
          refine map_cons_no_eof _ (by simp) _ _ hts (fun ts' h' => ih _ ?_ ts' h')
          simp only [List.length_tail]
          omega
        · rw [if_neg h13e] at hts
          exact map_cons_no_eof _ (by simp) _ _ hts (fun ts' h' => ih _ hrest ts' h')
      rw [if_neg h13] at hts
      by_cases h14 : (c == '+') = true
      · rw [if_pos h14] at hts
        exact map_cons_no_eof _ (by simp) _ _ hts (fun ts' h' => ih _ hrest ts' h')
      rw [if_neg h14] at hts
      by_cases h15 : (c == '-') = true
      · rw [if_pos h15] at hts
        exact map_cons_no_eof _ (by simp) _ _ hts (fun ts' h' => ih _ hrest ts' h')
      rw [if_neg h15] at hts
      by_cases h16 : (c == '*') = true
      · rw [if_pos h16] at hts
        exact map_cons_no_eof _ (by simp) _ _ hts (fun ts' h' => ih _ hrest ts' h')
      rw [if_neg h16] at hts
      by_cases h17 : (c == '/') = true
      · rw [if_pos h17] at hts
        by_cases h17e : (rest.head? == some '/') = true
        · rw [if_pos h17e] at hts
          exact ih rest hrest ts hts
        · rw [if_neg h17e] at hts
          exact map_cons_no_eof _ (by simp) _ _ hts (fun ts' h' => ih _ hrest ts' h')
      rw [if_neg h17] at hts
      by_cases h18 : (c == '%') = true
      · rw [if_pos h18] at hts
        exact map_cons_no_eof _ (by simp) _ _ hts (fun ts' h' => ih _ hrest ts' h')
      rw [if_neg h18] at hts
      by_cases h19 : isDigit c = true
      · rw [if_pos h19] at hts
        by_cases h19e : ((rest.dropWhile isDigit).head? == some '.') = true
        · rw [if_pos h19e] at hts
          refine map_cons_no_eof _ (by simp) _ _ hts (fun ts' h' => ih _ ?_ ts' h')
          have ha := H isDigit rest
          have hb := H isDigit ((rest.dropWhile isDigit).tail)
          simp only [List.length_tail] at hb
          omega
        · rw [if_neg h19e] at hts
          refine map_cons_no_eof _ (by simp) _ _ hts (fun ts' h' => ih _ ?_ ts' h')
          exact le_trans (H _ _) hrest
      rw [if_neg h19] at hts
      exact ih rest hrest ts hts

theorem current_past (tokens : List Token) (pos : Nat) (h : tokens.length ≤ pos) :
    current tokens pos = eofToken := by
  simp only [current, List.getD_eq_getElem?_getD]
  rw [List.getElem?_eq_none h]
  rfl

theorem current_drop (tokens : List Token) (pos : Nat) :
    current tokens pos = (tokens.drop pos).headD eofToken := by
  induction tokens generalizing pos with
  | nil => simp [current, List.getD]
  | cons t ts ih =>
    cases pos with
    | zero => simp [current, List.getD]
    | succ p =>
      rw [List.drop_succ_cons]
      rw [← ih p]
      simp [current, List.getD]

theorem parsePrimary_eq (tokens : List Token) (pos : Nat) :
    parsePrimary tokens pos = (leafNode (current tokens pos), pos + 1) := by
  unfold parsePrimary leafNode
  split_ifs <;> rfl

/-- C1: the claim says `Tokenize` never fails, skipping unknown characters and
turning an unterminated string into a STRING token reaching end-of-input.  The
unknown-character part holds (second conjunct), but on the input `"abc` — an
opening quote never closed — the Go code increments the cursor past the end of
the input and slices `l.input[start:l.pos]` with `l.pos = len+1`, an
out-of-range slice panic, modelled by `none` (first conjunct). -/
theorem tokenize_unterminated_string_panics :
    Tokenize ['"', 'a', 'b', 'c'] = none ∧ Tokenize ['@'] = some [⟨"EOF", ""⟩] := by
  constructor <;>
    simp [Tokenize, Lexer.Tokenize, NewLexer, lexLoop, isSpaceChar, isAlpha, isDigit, eofToken]

/-- C5: whenever tokenization returns (rather than panicking), the returned
sequence is some EOF-free prefix followed by exactly one end-marker token with
empty literal. -/
theorem tokenize_ends_with_unique_eof (input : List Char) (ts : List Token)
    (h : Tokenize input = some ts) :
    ∃ ts', ts = ts' ++ [eofToken] ∧ ∀ t ∈ ts', t.type ≠ "EOF" := by
  unfold Tokenize Lexer.Tokenize NewLexer at h
  rw [Option.map_eq_some'] at h
  obtain ⟨ts0, h1, rfl⟩ := h
  refine ⟨ts0, by simp, ?_⟩
  intro t ht
  exact lexLoop_no_eof input.length input le_rfl ts0 (by simp at h1; exact h1) t ht

theorem tokenize_ends_with_unique_eof_witness :
    ∃ ts', [Token.mk "IDENTIFIER" "x", eofToken] = ts' ++ [eofToken] ∧
      ∀ t ∈ ts', t.type ≠ "EOF" :=
  tokenize_ends_with_unique_eof ['x'] [Token.mk "IDENTIFIER" "x", eofToken]
    (by simp [Tokenize, Lexer.Tokenize, NewLexer, lexLoop, isSpaceChar, isAlpha, isDigit,
      keywordType, eofToken])

/-- C7: tokenization is deterministic and stateless across calls — any two
lexers built by `NewLexer` over the same input (in particular the fresh one of
a second run, whatever the first run did) give identical token sequences. -/
theorem tokenize_stateless (input : List Char) (l1 l2 : Lexer)
    (h1 : l1 = NewLexer input) (h2 : l2 = NewLexer input) :
    l1.Tokenize = l2.Tokenize := by
  subst h1
  subst h2
  rfl

theorem tokenize_stateless_witness :
    (NewLexer ['a']).Tokenize = (NewLexer ['a']).Tokenize :=
  tokenize_stateless ['a'] (NewLexer ['a']) (NewLexer ['a']) rfl rfl

set_option linter.unusedVariables false in
/-- C3: `parseExpression` combines at most one level of binary operators: on a
stream beginning with an operand, an operator and a second operand — whatever
follows, in particular further `op operand` pairs of a longer chain — it
returns the single flat BinaryExpression of the first two operands and stops
right after the second operand (position 3), leaving the trailing operators
and operands unconsumed and unattached. -/
theorem parseExpression_single_level (t1 op t2 : Token) (rest : List Token)
    (h1 : t1.type = "IDENTIFIER" ∨ t1.type = "NUMBER" ∨ t1.type = "STRING")
    (h2 : t2.type = "IDENTIFIER" ∨ t2.type = "NUMBER" ∨ t2.type = "STRING")
    (hop : isBinaryOperator op.type = true) :
    parseExpression (t1 :: op :: t2 :: rest) 0 =
      (some (.binaryExpression (leafNode t1) op.value (leafNode t2)), 3) := by
  simp [parseExpression, parsePrimary_eq, current, List.getD, hop]

theorem parseExpression_single_level_witness :
    parseExpression [⟨"IDENTIFIER", "a"⟩, ⟨"PLUS", "+"⟩, ⟨"IDENTIFIER", "b"⟩, ⟨"PLUS", "+"⟩,
        ⟨"IDENTIFIER", "c"⟩, ⟨"SEMICOLON", ";"⟩, ⟨"EOF", ""⟩] 0 =
      (some (.binaryExpression (leafNode ⟨"IDENTIFIER", "a"⟩) "+"
        (leafNode ⟨"IDENTIFIER", "b"⟩)), 3) :=
  parseExpression_single_level ⟨"IDENTIFIER", "a"⟩ ⟨"PLUS", "+"⟩ ⟨"IDENTIFIER", "b"⟩
    [⟨"PLUS", "+"⟩, ⟨"IDENTIFIER", "c"⟩, ⟨"SEMICOLON", ";"⟩, ⟨"EOF", ""⟩]
    (Or.inl rfl) (Or.inl rfl) (by decide)

/-- C4 counterexample: the source `"'a'"` uses the double quote on both ends,
and the text strictly between the matching quotes is `'a'`; but
`strings.Trim(raw, quote-cutset)` also strips the embedded single quotes at
the edges, so the StringLiteral value is `a`, not `'a'`. -/
theorem stringLiteral_trim_counterexample :
    Tokenize ['"', '\'', 'a', '\'', '"'] = some [⟨"STRING", "\"'a'\""⟩, ⟨"EOF", ""⟩] ∧
    parsePrimary [⟨"STRING", "\"'a'\""⟩, ⟨"EOF", ""⟩] 0 =
      (some (.stringLiteral "a"), 1) ∧
    ("a" : String) ≠ "'a'" := by
  refine ⟨?_, ?_, by decide⟩
  · simp [Tokenize, Lexer.Tokenize, NewLexer, lexLoop, isSpaceChar, isAlpha, isDigit, eofToken]
  · simp [parsePrimary, stringsTrim, current, List.getD]

theorem dropWhile_eq_self_of_head (p : α → Bool) (l : List α)
    (h : ∀ x, l.head? = some x → p x = false) : l.dropWhile p = l := by
  cases l with
  | nil => rfl
  | cons a as =>
    rw [List.dropWhile_cons, if_neg (by simp [h a rfl])]

theorem trim_both (p : Char → Bool) (q : Char) (mid : List Char)
    (hq : p q = true)
    (hhead : ∀ x, mid.head? = some x → p x = false)
    (hlast : ∀ x, mid.getLast? = some x → p x = false) :
    (((q :: (mid ++ [q])).dropWhile p).reverse.dropWhile p).reverse = mid := by
  rw [List.dropWhile_cons, if_pos hq]
  cases mid with
  | nil => simp [List.dropWhile_cons, hq]
  | cons m ms =>
    have hm0 : p m = false := hhead m rfl
    rw [List.cons_append, List.dropWhile_cons, if_neg (by simp [hm0])]
    have h2 : ((m :: ms) ++ [q]).reverse = q :: (m :: ms).reverse := by simp
    rw [← List.cons_append, h2, List.dropWhile_cons, if_pos hq]
    rw [dropWhile_eq_self_of_head p ((m :: ms).reverse)
      (fun x hx => hlast x (by rw [← List.head?_reverse]; exact hx))]
    exact List.reverse_reverse _

/-- C4 (amended): for a string literal with the same quote character on both
ends, the StringLiteral value is the text strictly between the quotes PROVIDED
that text does not itself begin or end with a quote character of either kind;
`strings.Trim` removes such edge quote characters as well (see the
counterexample). -/
theorem parsePrimary_string_between_quotes (tokens : List Token) (pos : Nat) (q : Char)
    (mid : List Char)
    (hq : q = '"' ∨ q = '\'')
    (hcur : (current tokens pos).type = "STRING")
    (hval : (current tokens pos).value = String.mk (q :: (mid ++ [q])))
    (hhead : ∀ x, mid.head? = some x → x ≠ '"' ∧ x ≠ '\'')
    (hlast : ∀ x, mid.getLast? = some x → x ≠ '"' ∧ x ≠ '\'') :
    parsePrimary tokens pos = (some (.stringLiteral (String.mk mid)), pos + 1) := by
  rw [parsePrimary_eq]
  unfold leafNode
  rw [if_neg (by rw [hcur]; decide), if_neg (by rw [hcur]; decide),
    if_pos (by rw [hcur]; decide)]
  rw [hval]
  unfold stringsTrim
  have hed : (String.mk (q :: (mid ++ [q]))).data = q :: (mid ++ [q]) := rfl
  rw [hed]
  rw [trim_both _ q mid
    (by rcases hq with rfl | rfl <;> decide)
    (fun x hx => by
      have := hhead x hx
      simp [this.1, this.2])
    (fun x hx => by
      have := hlast x hx
      simp [this.1, this.2])]

theorem parsePrimary_string_between_quotes_witness :
    parsePrimary [Token.mk "STRING" "\"ab\""] 0 =
      (some (.stringLiteral (String.mk ['a', 'b'])), 1) :=
  parsePrimary_string_between_quotes [Token.mk "STRING" "\"ab\""] 0 '"' ['a', 'b']
    (Or.inl rfl) rfl rfl
    (fun x hx => by simp at hx; subst hx; decide)
    (fun x hx => by simp at hx; subst hx; decide)

/-- C8: tokenizing then parsing `const sum = 10 + 5;` yields a program whose
single statement is VariableDeclaration(const, sum) with value
BinaryExpression(NumericLiteral 10, +, NumericLiteral 5). -/
theorem parse_const_sum_example :
    (Tokenize "const sum = 10 + 5;".data).bind (fun ts => Parse ts 10) =
      some ⟨[.variableDeclaration "const" "sum" (some (.binaryExpression
        (some (.numericLiteral "10")) "+" (some (.numericLiteral "5"))))]⟩ := by
  have h1 : Tokenize "const sum = 10 + 5;".data = some [⟨"CONST", "const"⟩,
      ⟨"IDENTIFIER", "sum"⟩, ⟨"EQUALS", "="⟩, ⟨"NUMBER", "10"⟩, ⟨"PLUS", "+"⟩,
      ⟨"NUMBER", "5"⟩, ⟨"SEMICOLON", ";"⟩, ⟨"EOF", ""⟩] := by
    simp [Tokenize, Lexer.Tokenize, NewLexer, lexLoop, isSpaceChar, isAlpha, isDigit,
      keywordType, eofToken]
  rw [h1]
  simp [Parse, programLoop, parseStatement, parseVariableDeclaration, parseExpression,
    parsePrimary, current, eofToken, isBinaryOperator, List.getD]

/-- C10: the parser's token access is total: `current` yields the synthetic
end-marker whenever the cursor is at or past the end of the stream (so `Parse`
never indexes out of bounds), and `Parse` of the empty token sequence — which
does not even contain an end marker — returns the empty program. -/
theorem parser_token_access_total :
    (∀ (tokens : List Token) (pos : Nat), tokens.length ≤ pos →
      current tokens pos = eofToken) ∧
    (∀ fuel, 1 ≤ fuel → Parse [] fuel = some ⟨[]⟩) := by
  constructor
  · exact current_past
  · intro fuel hf
    obtain ⟨f, rfl⟩ : ∃ f, fuel = f + 1 := ⟨fuel - 1, by omega⟩
    simp [Parse, programLoop, current, eofToken, List.getD]

theorem parser_token_access_total_witness :
    current [Token.mk "PLUS" "+"] 5 = eofToken ∧ Parse [] 1 = some ⟨[]⟩ :=
  ⟨parser_token_access_total.1 [Token.mk "PLUS" "+"] 5 (by decide),
    parser_token_access_total.2 1 (by decide)⟩

/-- C9: tokenizing `x == 1` gives IDENTIFIER(x), EQUALITY(==), NUMBER(1), EOF,
the two-character lookahead emitting one EQUALITY token instead of two EQUALS
tokens. -/
theorem tokenize_x_eq_eq_1 :
    Tokenize "x == 1".data =
      some [⟨"IDENTIFIER", "x"⟩, ⟨"EQUALITY", "=="⟩, ⟨"NUMBER", "1"⟩, ⟨"EOF", ""⟩] := by
  simp [Tokenize, Lexer.Tokenize, NewLexer, lexLoop, isSpaceChar, isAlpha, isDigit, keywordType,
    eofToken]

theorem lexLoop_wscomments (input : List Char) (cs : List (List Char))
    (h : WsComments input cs) :
    lexLoop input = some (cs.map (fun c => Token.mk "COMMENT" (String.mk c))) := by
  induction h with
  | nil => simp [lexLoop]
  | ws c rest cs hc _ ih =>
    rw [lexLoop, if_pos hc, ih]
  | comment body rest cs hbody hrest _ ih =>
    rw [lexLoop, if_neg (by decide), if_pos (by rfl)]
    have hdrop : ('/' :: (body ++ rest)).dropWhile (fun x => x != '\n') = rest := by
      rw [List.dropWhile_cons, if_pos (by decide)]
      rw [dropWhile_append_all _ body rest (fun x hx => by simp [hbody x hx])]
      rcases hrest with rfl | ⟨r, rfl⟩
      · rfl
      · rw [List.dropWhile_cons, if_neg (by decide)]
    have htake : ('/' :: (body ++ rest)).takeWhile (fun x => x != '\n') = '/' :: body := by
      rw [List.takeWhile_cons, if_pos (by decide)]
      rw [takeWhile_append_all _ body rest (fun x hx => by simp [hbody x hx])]
      rcases hrest with rfl | ⟨r, rfl⟩
      · simp
      · rw [List.takeWhile_cons, if_neg (by decide)]
        simp
    rw [hdrop, htake, ih]
    simp

theorem programLoop_comments (cs : List (List Char)) :
    ∀ (tokens : List Token) (fuel pos : Nat) (body : List Node),
    tokens.drop pos = cs.map (fun c => Token.mk "COMMENT" (String.mk c)) ++ [eofToken] →
    cs.length + 1 ≤ fuel →
    programLoop tokens fuel pos body =
      some (body ++ cs.map (fun c => Node.comment (String.mk c))) := by
  induction cs with
  | nil =>
    intro tokens fuel pos body hdrop hfuel
    obtain ⟨f, rfl⟩ : ∃ f, fuel = f + 1 := ⟨fuel - 1, by omega⟩
    have hc : current tokens pos = eofToken := by
      rw [current_drop, hdrop]
      rfl
    rw [programLoop, if_pos (by rw [hc]; rfl)]
    simp
  | cons c cs ih =>
    intro tokens fuel pos body hdrop hfuel
    obtain ⟨f, rfl⟩ : ∃ f, fuel = f + 1 := ⟨fuel - 1, by omega⟩
    obtain ⟨f', rfl⟩ : ∃ f', f = f' + 1 := ⟨f - 1, by simp at hfuel; omega⟩
    have hc : current tokens pos = Token.mk "COMMENT" (String.mk c) := by
      rw [current_drop, hdrop]
      rfl
    have hdrop1 : tokens.drop (pos + 1) =
        cs.map (fun c => Token.mk "COMMENT" (String.mk c)) ++ [eofToken] := by
      have h2 : tokens.drop (pos + 1) = (tokens.drop pos).drop 1 := by
        rw [List.drop_drop]
      rw [h2, hdrop]
      simp
    have hps : parseStatement tokens (f' + 1) pos =
        some (some (Node.comment (String.mk c)), pos + 1) := by
      rw [parseStatement, if_pos (by rw [hc]; rfl)]
      simp [parseComment, hc]
    rw [programLoop, if_neg (by rw [hc]; simp)]
    rw [hps]
    show programLoop tokens (f' + 1) (pos + 1) (body ++ [Node.comment (String.mk c)]) = _
    rw [ih tokens (f' + 1) (pos + 1) (body ++ [Node.comment (String.mk c)]) hdrop1
      (by simp at hfuel ⊢; omega)]
    simp

/-- C6: for every source text consisting only of whitespace and `//`-comments
(`WsComments input cs`, where `cs` lists the comment texts in source order),
tokenizing yields exactly one COMMENT token per comment plus the end marker,
and parsing yields a program whose body is exactly one Comment node per
comment, in order, each carrying the comment text verbatim — leading `//`
included, terminating newline excluded. -/
theorem whitespace_comments_parse (input : List Char) (cs : List (List Char))
    (h : WsComments input cs) :
    Tokenize input = some (cs.map (fun c => Token.mk "COMMENT" (String.mk c)) ++ [eofToken]) ∧
    Parse (cs.map (fun c => Token.mk "COMMENT" (String.mk c)) ++ [eofToken]) (cs.length + 1) =
      some ⟨cs.map (fun c => Node.comment (String.mk c))⟩ := by
  constructor
  · unfold Tokenize Lexer.Tokenize NewLexer
    rw [show List.drop 0 input = input from rfl, lexLoop_wscomments input cs h]
    simp
  · unfold Parse
    rw [programLoop_comments cs _ _ 0 [] (by simp) (by omega)]
    simp

theorem whitespace_comments_parse_witness :
    Tokenize ['/', '/', 'h', '\n', ' '] =
      some [Token.mk "COMMENT" (String.mk ['/', '/', 'h']), eofToken] ∧
    Parse [Token.mk "COMMENT" (String.mk ['/', '/', 'h']), eofToken] 2 =
      some ⟨[Node.comment (String.mk ['/', '/', 'h'])]⟩ :=
  whitespace_comments_parse ['/', '/', 'h', '\n', ' '] [['/', '/', 'h']]
    (WsComments.comment ['h'] ['\n', ' '] []
      (fun x hx => by simp at hx; subst hx; decide)
      (Or.inr ⟨[' '], rfl⟩)
      (WsComments.ws '\n' [' '] [] (by decide)
        (WsComments.ws ' ' [] [] (by decide) WsComments.nil)))

theorem funcBodyLoop_diverges :
    ∀ (fuel pos : Nat) (body : List Node), 5 ≤ pos →
      funcBodyLoop unclosedFunctionTokens fuel pos body = none := by
  intro fuel
  induction fuel with
  | zero =>
    intro pos body h
    rw [funcBodyLoop]
  | succ f ih =>
    intro pos body h
    have hcur : (current unclosedFunctionTokens pos).type = "EOF" := by
      rcases Nat.lt_or_ge pos 6 with h6 | h6
      · have h5 : pos = 5 := by omega
        subst h5
        rfl
      · rw [current_past _ _ (by simp [unclosedFunctionTokens]; omega)]
        rfl
    rw [funcBodyLoop, if_neg (by rw [hcur]; decide)]
    cases f with
    | zero =>
      rw [parseStatement]
    | succ f' =>
      have hps : parseStatement unclosedFunctionTokens (f' + 1) pos = some (none, pos + 1) := by
        rw [parseStatement,
          if_neg (by rw [hcur]; decide), if_neg (by rw [hcur]; decide),
          if_neg (by rw [hcur]; decide), if_neg (by rw [hcur]; decide),
          if_neg (by rw [hcur]; decide), if_neg (by rw [hcur]; decide)]
      rw [hps]
      show funcBodyLoop unclosedFunctionTokens (f' + 1) (pos + 1) (body ++ []) = none
      rw [List.append_nil]
      exact ih (pos + 1) body (by omega)

theorem Parse_unclosed_none : ∀ fuel, Parse unclosedFunctionTokens fuel = none := by
  intro fuel
  rcases fuel with _ | _ | _ | f
  · simp [Parse, programLoop]
  · simp [Parse, programLoop, parseStatement, current, List.getD, unclosedFunctionTokens,
      eofToken]
  · simp [Parse, programLoop, parseStatement, parseFunctionDeclaration, current, List.getD,
      unclosedFunctionTokens, eofToken]
  · have hb := funcBodyLoop_diverges f 5 [] (by omega)
    simp only [unclosedFunctionTokens, eofToken] at hb
    simp [Parse, programLoop, parseStatement, parseFunctionDeclaration, paramLoop, current,
      List.getD, unclosedFunctionTokens, eofToken, hb]

/-- C2 (code bug): the claim says every statement-parsing loop also stops at
the end marker, so `Parse` terminates on every finite token sequence, even one
missing a closing brace.  The function-body loop (parser.go line 131) checks
only for RIGHT_BRACE, so on the token stream of `function f() {` the cursor is
pushed past the end forever and `Parse` never returns: in the fuel model,
every fuel amount is exhausted.  (The first conjunct ties the stream to its
source text.) -/
theorem parse_unclosed_function_diverges :
    Tokenize "function f() \x7b".data = some unclosedFunctionTokens ∧
    ¬ ∃ fuel, (Parse unclosedFunctionTokens fuel).isSome := by
  constructor
  · simp [Tokenize, Lexer.Tokenize, NewLexer, lexLoop, isSpaceChar, isAlpha, isDigit,
      keywordType, eofToken, unclosedFunctionTokens]
  · rintro ⟨fuel, hf⟩
    rw [Parse_unclosed_none fuel] at hf
    simp at hf

end Ast
